import Mathlib

/-!
Shallow embedding of the strategy-optimization analytics engine of the
User_Strategy repository (route GET /optimize/:userId in src/routes/sync.ts,
lines 226-409).  Trades are embedded as records with exact rational
`outcome`; the aggregation pipeline stages ($project riskScore, $facet with
byStrategy / byRisk / perTrade, the winRate and sort stages) and the
post-processing (underperforming filter, Pearson correlation, suggestion
rules, report assembly) are embedded as pure functions.
-/

namespace UserStrategy

/-- A trade document as projected by the aggregation pipeline: the fields
the optimize route reads (userId and tradeDate are handled by the $match
stage, so a value of type List Trade stands for the already-matched window
of one user's trades). -/
structure Trade where
  strategyId : String
  riskLevel  : String
  outcome    : ℚ
  win        : Bool
  deriving DecidableEq

/-- The $switch in the $project stage (sync.ts lines 253-262): low maps to 1,
medium to 2, high to 3, anything else to the default 2. -/
def riskScore (riskLevel : String) : ℚ :=
  if riskLevel = "low" then 1
  else if riskLevel = "medium" then 2
  else if riskLevel = "high" then 3
  else 2

/-- One element of the byStrategy facet output (lines 267-295). -/
structure StrategyStat where
  strategyId : String
  total : ℕ
  wins : ℕ
  winRate : ℚ
  deriving DecidableEq

/-- The trades belonging to one strategy group. -/
def strategyGroup (ts : List Trade) (sid : String) : List Trade :=
  ts.filter (fun t => decide (t.strategyId = sid))

/-- The $group and winRate $project of the byStrategy facet for one key:
total counts the group, wins counts the trades with win = true, and
winRate is wins / total guarded by total > 0 (lines 269-293). -/
def strategyStat (ts : List Trade) (sid : String) : StrategyStat :=
  { strategyId := sid
    total := (strategyGroup ts sid).length
    wins := ((strategyGroup ts sid).filter (fun t => t.win)).length
    winRate :=
      if 0 < (strategyGroup ts sid).length then
        (((strategyGroup ts sid).filter (fun t => t.win)).length : ℚ) /
          ((strategyGroup ts sid).length : ℚ)
      else 0 }

/-- The byStrategy facet (lines 267-295): one bucket per distinct strategyId
occurring in the window, sorted ascending by winRate. -/
def byStrategy (ts : List Trade) : List StrategyStat :=
  (((ts.map (fun t => t.strategyId)).dedup).map (strategyStat ts)).mergeSort
    (fun a b => decide (a.winRate ≤ b.winRate))

/-- One element of the byRisk facet output (lines 296-313). -/
structure RiskStat where
  riskLevel : String
  avgOutcome : ℚ
  count : ℕ
  deriving DecidableEq

/-- The trades belonging to one risk-level group. -/
def riskGroup (ts : List Trade) (lvl : String) : List Trade :=
  ts.filter (fun t => decide (t.riskLevel = lvl))

/-- The $group of the byRisk facet for one key: count and the $avg of
outcome (lines 298-303). -/
def riskStat (ts : List Trade) (lvl : String) : RiskStat :=
  { riskLevel := lvl
    count := (riskGroup ts lvl).length
    avgOutcome := ((riskGroup ts lvl).map (fun t => t.outcome)).sum /
      ((riskGroup ts lvl).length : ℚ) }

/-- The byRisk facet (lines 296-313): one bucket per distinct riskLevel
occurring in the window, sorted ascending by riskLevel as a plain string. -/
def byRisk (ts : List Trade) : List RiskStat :=
  (((ts.map (fun t => t.riskLevel)).dedup).map (riskStat ts)).mergeSort
    (fun a b => decide (a.riskLevel ≤ b.riskLevel))

/-- The perTrade facet (lines 314-322): the (riskScore, outcome) pair of
every matched trade. -/
def perTrade (ts : List Trade) : List (ℚ × ℚ) :=
  ts.map (fun t => (riskScore t.riskLevel, t.outcome))

/-- One element of the underperformingStrategies list (lines 344-346). -/
structure UnderperfEntry where
  strategyId : String
  winRate : ℚ
  deriving DecidableEq

/-- The underperforming filter (lines 344-346): buckets with total > 0 and
winRate < 0.5, projected to strategyId and winRate. -/
def underperformingStrategies (ts : List Trade) : List UnderperfEntry :=
  ((byStrategy ts).filter (fun s => decide (0 < s.total ∧ s.winRate < 1/2))).map
    (fun s => { strategyId := s.strategyId, winRate := s.winRate })

/-- Running sum of the first components (sumX, line 352). -/
def sumX (ps : List (ℚ × ℚ)) : ℚ := (ps.map (fun p => p.1)).sum

/-- Running sum of the second components (sumY, line 353). -/
def sumY (ps : List (ℚ × ℚ)) : ℚ := (ps.map (fun p => p.2)).sum

/-- Running sum of the products (sumXY, line 354). -/
def sumXY (ps : List (ℚ × ℚ)) : ℚ := (ps.map (fun p => p.1 * p.2)).sum

/-- Running sum of the squared first components (sumX2, line 355). -/
def sumX2 (ps : List (ℚ × ℚ)) : ℚ := (ps.map (fun p => p.1 * p.1)).sum

/-- Running sum of the squared second components (sumY2, line 356). -/
def sumY2 (ps : List (ℚ × ℚ)) : ℚ := (ps.map (fun p => p.2 * p.2)).sum

/-- The numerator n * sumXY - sumX * sumY of the Pearson coefficient
(line 366). -/
def corrNumerator (ps : List (ℚ × ℚ)) : ℚ :=
  (ps.length : ℚ) * sumXY ps - sumX ps * sumY ps

/-- The left factor n * sumX2 - sumX * sumX under the square root
(line 367). -/
def denomLeft (ps : List (ℚ × ℚ)) : ℚ :=
  (ps.length : ℚ) * sumX2 ps - sumX ps * sumX ps

/-- The right factor n * sumY2 - sumY * sumY under the square root
(line 368). -/
def denomRight (ps : List (ℚ × ℚ)) : ℚ :=
  (ps.length : ℚ) * sumY2 ps - sumY ps * sumY ps

/-- The denominator sqrt(denomLeft * denomRight) of the Pearson coefficient
(line 369). -/
noncomputable def denominator (ps : List (ℚ × ℚ)) : ℝ :=
  Real.sqrt ((denomLeft ps : ℝ) * (denomRight ps : ℝ))

/-- The correlation computation (lines 348-371): null when fewer than two
points, null when the denominator is exactly zero, otherwise
numerator / denominator. -/
noncomputable def correlation (ts : List Trade) : Option ℝ :=
  if (perTrade ts).length < 2 then none
  else if denominator (perTrade ts) = 0 then none
  else some ((corrNumerator (perTrade ts) : ℝ) / denominator (perTrade ts))

/-- The suggestion generator (lines 374-388): one refine line per
underperforming strategy, then the low-risk size rule, then the
correlation exposure rule. -/
noncomputable def suggestions (ts : List Trade) : List String :=
  ((underperformingStrategies ts).map
      (fun s => "Refine entry criteria for strategy " ++ s.strategyId))
  ++ (match (byRisk ts).find? (fun b => decide (b.riskLevel = "low")) with
      | some b =>
          if 3 ≤ b.count ∧ 0 < b.avgOutcome then
            ["Increase position size for low-risk trades"]
          else []
      | none => [])
  ++ (match correlation ts with
      | some c =>
          if c < -(1/5 : ℝ) then ["Reduce exposure to high-risk trades"] else []
      | none => [])

/-- The 200-response body of the optimize route (lines 390-401), with
generatedAt carried as an opaque string. -/
structure Report where
  userId : String
  windowDays : ℕ
  underperformingStrategies : List UnderperfEntry
  riskAverages : List RiskStat
  riskOutcomeCorrelation : Option ℝ
  suggestions : List String
  totalTradesAnalyzed : ℕ
  generatedAt : String

/-- Assembly of the report from the matched trade set (lines 329-401). -/
noncomputable def buildReport (userId : String) (ts : List Trade)
    (now : String) : Report :=
  { userId := userId
    windowDays := 30
    underperformingStrategies := underperformingStrategies ts
    riskAverages := byRisk ts
    riskOutcomeCorrelation := correlation ts
    suggestions := suggestions ts
    totalTradesAnalyzed := (perTrade ts).length
    generatedAt := now }

/-- The observable outcome of one request to the optimize route: either a
client error with a status code and error body, or the report. -/
inductive HandlerResult where
  | clientError (status : ℕ) (error : String)
  | ok (report : Report)

/-- Modelled from the spec: Types.ObjectId.isValid (line 230) lives in the
mongoose dependency, not in this repository; the spec describes the accepted
identifier format as the native identifier format of the store, e.g. a
24-character hex string. -/
def isValidObjectId (s : String) : Bool :=
  decide (s.length = 24) &&
    s.toList.all (fun c => c.isDigit || ("abcdefABCDEF".toList.contains c))

/-- The optimize route handler (lines 226-407): validate the identifier
first and answer 400 without querying the store on failure, otherwise build
the report from the store's window for this user. The store argument stands
for the trade query layer: the matched window of trades per userId. -/
noncomputable def optimizeHandler (userId : String)
    (store : String → List Trade) (now : String) : HandlerResult :=
  if isValidObjectId userId then
    HandlerResult.ok (buildReport userId (store userId) now)
  else
    HandlerResult.clientError 400 "Invalid userId"

/-- The handler outcome with the generatedAt timestamp blanked, used to
state that reports differ only in that field. -/
def stripGeneratedAt : HandlerResult → HandlerResult
  | HandlerResult.clientError s e => HandlerResult.clientError s e
  | HandlerResult.ok r => HandlerResult.ok { r with generatedAt := "" }

/-- A one-trade sample input used by concrete witnesses. -/
def sampleTrades : List Trade :=
  [{ strategyId := "a", riskLevel := "low", outcome := 1, win := false }]

/-- A three-trade sample covering all risk levels, used by witnesses. -/
def threeRiskTrades : List Trade :=
  [{ strategyId := "a", riskLevel := "medium", outcome := 1, win := true },
   { strategyId := "a", riskLevel := "high", outcome := 2, win := true },
   { strategyId := "a", riskLevel := "low", outcome := 3, win := true }]

/-- A two-trade sample with variance in both risk score and outcome, whose
Pearson denominator is the square root of 4; used by concrete witnesses. -/
def corrTrades : List Trade :=
  [{ strategyId := "a", riskLevel := "low", outcome := 0, win := true },
   { strategyId := "b", riskLevel := "high", outcome := 1, win := true }]

/-! ## Lemmas about the byStrategy facet -/

lemma mem_byStrategy {ts : List Trade} {s : StrategyStat} :
    s ∈ byStrategy ts ↔
      ∃ sid ∈ (ts.map (fun t => t.strategyId)).dedup, strategyStat ts sid = s := by
  simp [byStrategy]

lemma strategyGroup_length_pos {ts : List Trade} {sid : String}
    (h : sid ∈ (ts.map (fun t => t.strategyId)).dedup) :
    0 < (strategyGroup ts sid).length := by
  rw [List.mem_dedup, List.mem_map] at h
  obtain ⟨t, ht, rfl⟩ := h
  have hmem : t ∈ strategyGroup ts t.strategyId := by
    simp [strategyGroup, ht]
  exact List.length_pos_of_mem hmem

lemma byStrategy_total_pos {ts : List Trade} {s : StrategyStat}
    (h : s ∈ byStrategy ts) : 0 < s.total := by
  obtain ⟨sid, hsid, rfl⟩ := mem_byStrategy.mp h
  exact strategyGroup_length_pos hsid

lemma byStrategy_wins_le_total {ts : List Trade} {s : StrategyStat}
    (h : s ∈ byStrategy ts) : s.wins ≤ s.total := by
  obtain ⟨sid, hsid, rfl⟩ := mem_byStrategy.mp h
  exact List.length_filter_le _ _

lemma byStrategy_winRate_eq {ts : List Trade} {s : StrategyStat}
    (h : s ∈ byStrategy ts) : s.winRate = (s.wins : ℚ) / (s.total : ℚ) := by
  obtain ⟨sid, hsid, rfl⟩ := mem_byStrategy.mp h
  simp [strategyStat, strategyGroup_length_pos hsid]

lemma byStrategy_winRate_nonneg {ts : List Trade} {s : StrategyStat}
    (h : s ∈ byStrategy ts) : 0 ≤ s.winRate := by
  rw [byStrategy_winRate_eq h]
  positivity

lemma byStrategy_winRate_le_one {ts : List Trade} {s : StrategyStat}
    (h : s ∈ byStrategy ts) : s.winRate ≤ 1 := by
  rw [byStrategy_winRate_eq h]
  rw [div_le_one (by exact_mod_cast byStrategy_total_pos h)]
  exact_mod_cast byStrategy_wins_le_total h

/-- C1: a strategy appears in underperformingStrategies iff its bucket has
total > 0 and winRate strictly below one half, and every strategy bucket's
winRate lies in the closed interval from 0 to 1. -/
theorem underperforming_iff_and_winRate_bounds (ts : List Trade) :
    (∀ s ∈ byStrategy ts, 0 ≤ s.winRate ∧ s.winRate ≤ 1) ∧
    (∀ s ∈ byStrategy ts,
      (({ strategyId := s.strategyId, winRate := s.winRate } : UnderperfEntry) ∈
          underperformingStrategies ts ↔ 0 < s.total ∧ s.winRate < 1/2)) := by
  refine ⟨fun s hs => ⟨byStrategy_winRate_nonneg hs, byStrategy_winRate_le_one hs⟩,
    fun s hs => ⟨fun hmem => ?_, fun hcond => ?_⟩⟩
  · refine ⟨byStrategy_total_pos hs, ?_⟩
    rw [underperformingStrategies] at hmem
    obtain ⟨s', hs', heq⟩ := List.mem_map.mp hmem
    have hP := (List.mem_filter.mp hs').2
    rw [decide_eq_true_iff] at hP
    have : s'.winRate = s.winRate := congrArg UnderperfEntry.winRate heq
    exact this ▸ hP.2
  · rw [underperformingStrategies]
    refine List.mem_map_of_mem _ (List.mem_filter.mpr ⟨hs, ?_⟩)
    exact decide_eq_true (by exact hcond)

/-- Concrete instantiation of the C1 theorem on a one-trade input. -/
theorem underperforming_iff_and_winRate_bounds_witness :
    strategyStat sampleTrades "a" ∈ byStrategy sampleTrades ∧
    (({ strategyId := (strategyStat sampleTrades "a").strategyId,
        winRate := (strategyStat sampleTrades "a").winRate } : UnderperfEntry) ∈
      underperformingStrategies sampleTrades) := by
  have hmem : strategyStat sampleTrades "a" ∈ byStrategy sampleTrades := by
    rw [byStrategy, List.mem_mergeSort]
    exact List.mem_map_of_mem _ (by decide)
  refine ⟨hmem, ?_⟩
  refine ((underperforming_iff_and_winRate_bounds sampleTrades).2 _ hmem).mpr ?_
  constructor
  · exact byStrategy_total_pos hmem
  · show (strategyStat sampleTrades "a").winRate < 1/2
    norm_num [strategyStat, strategyGroup, sampleTrades]

/-! ## Lemmas about the byRisk facet -/

lemma mem_byRisk {ts : List Trade} {b : RiskStat} :
    b ∈ byRisk ts ↔
      ∃ lvl ∈ (ts.map (fun t => t.riskLevel)).dedup, riskStat ts lvl = b := by
  simp [byRisk]

lemma riskGroup_length_pos {ts : List Trade} {lvl : String}
    (h : lvl ∈ (ts.map (fun t => t.riskLevel)).dedup) :
    0 < (riskGroup ts lvl).length := by
  rw [List.mem_dedup, List.mem_map] at h
  obtain ⟨t, ht, rfl⟩ := h
  have hmem : t ∈ riskGroup ts t.riskLevel := by
    simp [riskGroup, ht]
  exact List.length_pos_of_mem hmem

lemma byRisk_sorted (ts : List Trade) :
    (byRisk ts).Pairwise (fun a b => a.riskLevel ≤ b.riskLevel) := by
  have h := @List.sorted_mergeSort RiskStat
    (fun a b => decide (a.riskLevel ≤ b.riskLevel))
    (fun a b c hab hbc => by
      rw [decide_eq_true_iff] at hab hbc ⊢
      exact le_trans hab hbc)
    (fun a b => by
      rcases le_total a.riskLevel b.riskLevel with h | h <;> simp [h])
    (((ts.map (fun t => t.riskLevel)).dedup).map (riskStat ts))
  exact (List.Pairwise.imp (fun hab => of_decide_eq_true hab)) h

/-- C6: byRisk groups trades by riskLevel with avgOutcome the arithmetic
mean of outcome in the bucket, emits no empty bucket, covers every trade's
riskLevel, and is sorted ascending by riskLevel as a plain string. -/
theorem byRisk_buckets_spec (ts : List Trade) :
    ((byRisk ts).map (fun b => b.riskLevel)).Pairwise (· ≤ ·) ∧
    (∀ b ∈ byRisk ts,
      b.count = (riskGroup ts b.riskLevel).length ∧ 0 < b.count ∧
      b.avgOutcome =
        ((riskGroup ts b.riskLevel).map (fun t => t.outcome)).sum / (b.count : ℚ)) ∧
    (∀ t ∈ ts, ∃ b ∈ byRisk ts, b.riskLevel = t.riskLevel) ∧
    (("high" : String) < "low" ∧ ("low" : String) < "medium") := by
  refine ⟨?_, fun b hb => ?_, fun t ht => ?_, by simp; decide, by simp; decide⟩
  · exact List.pairwise_map.mpr (byRisk_sorted ts)
  · obtain ⟨lvl, hlvl, rfl⟩ := mem_byRisk.mp hb
    exact ⟨rfl, riskGroup_length_pos hlvl, rfl⟩
  · have hlvl : t.riskLevel ∈ (ts.map (fun t => t.riskLevel)).dedup := by
      rw [List.mem_dedup]
      exact List.mem_map_of_mem _ ht
    refine ⟨riskStat ts t.riskLevel, ?_, rfl⟩
    rw [byRisk, List.mem_mergeSort]
    exact List.mem_map_of_mem _ hlvl

/-- Concrete instantiation of the C6 theorem on a three-trade input. -/
theorem byRisk_buckets_spec_witness :
    riskStat threeRiskTrades "low" ∈ byRisk threeRiskTrades ∧
    (riskStat threeRiskTrades "low").count =
      (riskGroup threeRiskTrades "low").length ∧
    0 < (riskStat threeRiskTrades "low").count := by
  have hmem : riskStat threeRiskTrades "low" ∈ byRisk threeRiskTrades := by
    rw [byRisk, List.mem_mergeSort]
    exact List.mem_map_of_mem _ (by decide)
  have h := (byRisk_buckets_spec threeRiskTrades).2.1 _ hmem
  exact ⟨hmem, h.1, h.2.1⟩

/-! ## Risk-score mapping, empty window, validation, determinism -/

/-- C4: the risk-score mapping is total on riskLevel values: low maps to 1,
medium to 2, high to 3, and any other value maps to the default 2. -/
theorem riskScore_total_mapping (lvl : String) :
    (riskScore "low" = 1 ∧ riskScore "medium" = 2 ∧ riskScore "high" = 3) ∧
    (lvl ≠ "low" → lvl ≠ "medium" → lvl ≠ "high" → riskScore lvl = 2) := by
  refine ⟨⟨rfl, rfl, rfl⟩, fun h1 h2 h3 => ?_⟩
  simp [riskScore, h1, h2, h3]

/-- Concrete instantiation of the C4 theorem on an unrecognized level. -/
theorem riskScore_total_mapping_witness :
    ("weird" : String) ≠ "low" ∧ riskScore "weird" = 2 :=
  ⟨by decide, (riskScore_total_mapping "weird").2 (by decide) (by decide) (by decide)⟩

/-- C5: on an empty trade window the report degrades to empty lists, a null
correlation and a zero trade count, with no special-cased early return in
the embedding. -/
theorem empty_window_report (u now : String) :
    buildReport u [] now =
      { userId := u, windowDays := 30, underperformingStrategies := [],
        riskAverages := [], riskOutcomeCorrelation := none, suggestions := [],
        totalTradesAnalyzed := 0, generatedAt := now } := by
  have hb : byStrategy ([] : List Trade) = [] := by simp [byStrategy]
  have hr : byRisk ([] : List Trade) = [] := by simp [byRisk]
  have hc : correlation ([] : List Trade) = none := by
    rw [correlation, if_pos]
    simp [perTrade]
  have hu : underperformingStrategies ([] : List Trade) = [] := by
    simp [underperformingStrategies, hb]
  have hs : suggestions ([] : List Trade) = [] := by
    simp [suggestions, hu, hr, hc]
  simp [buildReport, hu, hr, hc, hs, perTrade]

/-- C7: an invalid userId is answered with status 400 and the error body
Invalid userId, and the handler result does not depend on the trade store,
so no query is needed. -/
theorem invalid_userId_rejected (u now : String)
    (store store2 : String → List Trade) (h : isValidObjectId u = false) :
    optimizeHandler u store now = HandlerResult.clientError 400 "Invalid userId" ∧
    optimizeHandler u store now = optimizeHandler u store2 now := by
  constructor <;> simp [optimizeHandler, h]

/-- Concrete instantiation of the C7 theorem on a malformed identifier. -/
theorem invalid_userId_rejected_witness :
    isValidObjectId "not-an-objectid" = false ∧
    optimizeHandler "not-an-objectid" (fun _ => sampleTrades) "t0" =
      HandlerResult.clientError 400 "Invalid userId" := by
  have h : isValidObjectId "not-an-objectid" = false := by decide
  exact ⟨h, (invalid_userId_rejected _ "t0" _ (fun _ => []) h).1⟩

/-- C9: the report computation is a function of the userId and the
trade-store snapshot: two invocations with the same store agree on
everything except the generatedAt timestamp. -/
theorem report_deterministic (u now1 now2 : String)
    (store : String → List Trade) :
    stripGeneratedAt (optimizeHandler u store now1) =
      stripGeneratedAt (optimizeHandler u store now2) := by
  rcases Bool.eq_false_or_eq_true (isValidObjectId u) with h | h <;>
    simp [optimizeHandler, h, stripGeneratedAt, buildReport]

/-! ## Consistency of the facet totals -/

lemma count_filter_key (ts : List Trade) (g : Trade → String) (b : String) :
    (ts.filter (fun t => decide (g t = b))).length = (ts.map g).count b := by
  rw [List.count_eq_countP, List.countP_map, ← List.countP_eq_length_filter]
  apply List.countP_congr
  intro a _
  simp [Function.comp, beq_iff_eq]

lemma sum_group_lengths (ts : List Trade) (g : Trade → String) :
    (((ts.map g).dedup).map
      (fun b => (ts.filter (fun t => decide (g t = b))).length)).sum = ts.length := by
  rw [← List.sum_toFinset _ (List.nodup_dedup (ts.map g))]
  have hfs : (ts.map g).dedup.toFinset = (ts.map g).toFinset := by
    ext a
    simp
  rw [hfs]
  have hcnt : ∀ b ∈ (ts.map g).toFinset,
      (ts.filter (fun t => decide (g t = b))).length = (ts.map g).count b :=
    fun b _ => count_filter_key ts g b
  rw [Finset.sum_congr rfl hcnt, List.sum_toFinset_count_eq_length, List.length_map]

lemma sum_byStrategy_total (ts : List Trade) :
    ((byStrategy ts).map (fun s => s.total)).sum = ts.length := by
  have hperm : ((byStrategy ts).map (fun s => s.total)).Perm
      ((((ts.map (fun t => t.strategyId)).dedup).map (strategyStat ts)).map
        (fun s => s.total)) :=
    (List.mergeSort_perm _ _).map _
  rw [hperm.sum_eq, List.map_map]
  exact sum_group_lengths ts (fun t => t.strategyId)

lemma sum_byRisk_count (ts : List Trade) :
    ((byRisk ts).map (fun b => b.count)).sum = ts.length := by
  have hperm : ((byRisk ts).map (fun b => b.count)).Perm
      ((((ts.map (fun t => t.riskLevel)).dedup).map (riskStat ts)).map
        (fun b => b.count)) :=
    (List.mergeSort_perm _ _).map _
  rw [hperm.sum_eq, List.map_map]
  exact sum_group_lengths ts (fun t => t.riskLevel)

/-- C10: meta.totalTradesAnalyzed equals the number of matched trades,
which equals the sum of total over the byStrategy buckets and the sum of
count over the byRisk buckets, and every strategy bucket has wins at most
total. -/
theorem facet_totals_consistent (ts : List Trade) (u now : String) :
    (buildReport u ts now).totalTradesAnalyzed = ts.length ∧
    ((byStrategy ts).map (fun s => s.total)).sum = ts.length ∧
    ((byRisk ts).map (fun b => b.count)).sum = ts.length ∧
    ∀ s ∈ byStrategy ts, s.wins ≤ s.total := by
  refine ⟨?_, sum_byStrategy_total ts, sum_byRisk_count ts,
    fun s hs => byStrategy_wins_le_total hs⟩
  simp [buildReport, perTrade]

/-- Concrete instantiation of the C10 theorem on a one-trade input. -/
theorem facet_totals_consistent_witness :
    (buildReport "u" sampleTrades "t").totalTradesAnalyzed = sampleTrades.length ∧
    (strategyStat sampleTrades "a").wins ≤ (strategyStat sampleTrades "a").total := by
  have hmem : strategyStat sampleTrades "a" ∈ byStrategy sampleTrades := by
    rw [byStrategy, List.mem_mergeSort]
    exact List.mem_map_of_mem _ (by decide)
  exact ⟨(facet_totals_consistent sampleTrades "u" "t").1,
    (facet_totals_consistent sampleTrades "u" "t").2.2.2 _ hmem⟩

/-! ## The Pearson correlation: denominator characterization and bounds -/

lemma list_sum_map_eq (ps : List (ℚ × ℚ)) (f : ℚ × ℚ → ℚ) :
    (ps.map f).sum = ∑ i : Fin ps.length, f (ps.get i) := by
  conv_lhs => rw [← List.ofFn_get ps, List.map_ofFn, List.sum_ofFn]
  rfl

lemma double_sum_identity {n : ℕ} (x y : Fin n → ℚ) :
    ∑ p : Fin n × Fin n, (x p.1 - x p.2) * (y p.1 - y p.2) =
      2 * ((n : ℚ) * (∑ i, x i * y i) - (∑ i, x i) * (∑ i, y i)) := by
  have e1 : ∑ p : Fin n × Fin n, x p.1 * y p.1 = (n : ℚ) * ∑ i, x i * y i := by
    rw [Fintype.sum_prod_type]
    simp only [Finset.sum_const, Finset.card_univ, Fintype.card_fin, nsmul_eq_mul]
    rw [← Finset.mul_sum]
  have e2 : ∑ p : Fin n × Fin n, x p.1 * y p.2 = (∑ i, x i) * (∑ i, y i) := by
    rw [Fintype.sum_prod_type]
    rw [Finset.sum_mul_sum]
  have e3 : ∑ p : Fin n × Fin n, x p.2 * y p.1 = (∑ i, x i) * (∑ i, y i) := by
    rw [Fintype.sum_prod_type]
    simp_rw [← Finset.sum_mul]
    rw [← Finset.mul_sum, mul_comm]
  have e4 : ∑ p : Fin n × Fin n, x p.2 * y p.2 = (n : ℚ) * ∑ i, x i * y i := by
    rw [Fintype.sum_prod_type]
    simp only [Finset.sum_const, Finset.card_univ, Fintype.card_fin, nsmul_eq_mul]
  calc ∑ p : Fin n × Fin n, (x p.1 - x p.2) * (y p.1 - y p.2)
      = ∑ p : Fin n × Fin n,
          (x p.1 * y p.1 - x p.1 * y p.2 - x p.2 * y p.1 + x p.2 * y p.2) :=
        Finset.sum_congr rfl (fun p _ => by ring)
    _ = 2 * ((n : ℚ) * (∑ i, x i * y i) - (∑ i, x i) * (∑ i, y i)) := by
        rw [Finset.sum_add_distrib, Finset.sum_sub_distrib, Finset.sum_sub_distrib,
          e1, e2, e3, e4]
        ring

lemma pearson_sq_le {n : ℕ} (x y : Fin n → ℚ) :
    ((n : ℚ) * (∑ i, x i * y i) - (∑ i, x i) * (∑ i, y i)) ^ 2 ≤
      ((n : ℚ) * (∑ i, x i * x i) - (∑ i, x i) * (∑ i, x i)) *
        ((n : ℚ) * (∑ i, y i * y i) - (∑ i, y i) * (∑ i, y i)) := by
  have hcs := Finset.sum_mul_sq_le_sq_mul_sq (Finset.univ : Finset (Fin n × Fin n))
    (fun p => x p.1 - x p.2) (fun p => y p.1 - y p.2)
  simp_rw [pow_two] at hcs
  rw [double_sum_identity x y, double_sum_identity x x, double_sum_identity y y] at hcs
  nlinarith [hcs]

lemma fin_denom_nonneg {n : ℕ} (x : Fin n → ℚ) :
    0 ≤ (n : ℚ) * (∑ i, x i * x i) - (∑ i, x i) * (∑ i, x i) := by
  have hcs := Finset.sum_mul_sq_le_sq_mul_sq (Finset.univ : Finset (Fin n))
    x (fun _ => (1 : ℚ))
  simp_rw [pow_two] at hcs
  simp only [mul_one, one_mul, Finset.sum_const, Finset.card_univ,
    Fintype.card_fin, nsmul_eq_mul] at hcs
  nlinarith [hcs]

lemma corrNumerator_sq_le (ps : List (ℚ × ℚ)) :
    corrNumerator ps ^ 2 ≤ denomLeft ps * denomRight ps := by
  have hx : sumX ps = ∑ i : Fin ps.length, (ps.get i).1 := by
    rw [sumX, list_sum_map_eq]
  have hy : sumY ps = ∑ i : Fin ps.length, (ps.get i).2 := by
    rw [sumY, list_sum_map_eq]
  have hxy : sumXY ps = ∑ i : Fin ps.length, (ps.get i).1 * (ps.get i).2 := by
    rw [sumXY, list_sum_map_eq]
  have hx2 : sumX2 ps = ∑ i : Fin ps.length, (ps.get i).1 * (ps.get i).1 := by
    rw [sumX2, list_sum_map_eq]
  have hy2 : sumY2 ps = ∑ i : Fin ps.length, (ps.get i).2 * (ps.get i).2 := by
    rw [sumY2, list_sum_map_eq]
  rw [corrNumerator, denomLeft, denomRight, hx, hy, hxy, hx2, hy2]
  exact pearson_sq_le (fun i => (ps.get i).1) (fun i => (ps.get i).2)

lemma denomLeft_nonneg (ps : List (ℚ × ℚ)) : 0 ≤ denomLeft ps := by
  have hx : sumX ps = ∑ i : Fin ps.length, (ps.get i).1 := by
    rw [sumX, list_sum_map_eq]
  have hx2 : sumX2 ps = ∑ i : Fin ps.length, (ps.get i).1 * (ps.get i).1 := by
    rw [sumX2, list_sum_map_eq]
  rw [denomLeft, hx, hx2]
  exact fin_denom_nonneg (fun i => (ps.get i).1)

lemma denomRight_nonneg (ps : List (ℚ × ℚ)) : 0 ≤ denomRight ps := by
  have hy : sumY ps = ∑ i : Fin ps.length, (ps.get i).2 := by
    rw [sumY, list_sum_map_eq]
  have hy2 : sumY2 ps = ∑ i : Fin ps.length, (ps.get i).2 * (ps.get i).2 := by
    rw [sumY2, list_sum_map_eq]
  rw [denomRight, hy, hy2]
  exact fin_denom_nonneg (fun i => (ps.get i).2)

lemma denominator_eq_zero_iff (ps : List (ℚ × ℚ)) :
    denominator ps = 0 ↔ denomLeft ps = 0 ∨ denomRight ps = 0 := by
  have hnn : (0 : ℝ) ≤ (denomLeft ps : ℝ) * (denomRight ps : ℝ) :=
    mul_nonneg (by exact_mod_cast denomLeft_nonneg ps)
      (by exact_mod_cast denomRight_nonneg ps)
  rw [denominator, Real.sqrt_eq_zero hnn, mul_eq_zero]
  simp

lemma correlation_value_bounds {ps : List (ℚ × ℚ)} (hd : denominator ps ≠ 0) :
    -1 ≤ (corrNumerator ps : ℝ) / denominator ps ∧
      (corrNumerator ps : ℝ) / denominator ps ≤ 1 := by
  have hpos : 0 < denominator ps :=
    lt_of_le_of_ne (Real.sqrt_nonneg _) (Ne.symm hd)
  have hsq : ((corrNumerator ps : ℝ)) ^ 2 ≤ (denomLeft ps : ℝ) * (denomRight ps : ℝ) := by
    exact_mod_cast corrNumerator_sq_le ps
  have habs : |(corrNumerator ps : ℝ)| ≤ denominator ps := by
    calc |(corrNumerator ps : ℝ)| = Real.sqrt ((corrNumerator ps : ℝ) ^ 2) :=
        (Real.sqrt_sq_eq_abs _).symm
      _ ≤ denominator ps := Real.sqrt_le_sqrt hsq
  have hq : |(corrNumerator ps : ℝ) / denominator ps| ≤ 1 := by
    rw [abs_div, abs_of_pos hpos, div_le_one hpos]
    exact habs
  exact abs_le.mp hq

/-- C2: the correlation is null iff there are fewer than two trades or the
denominator is exactly zero, the denominator vanishes iff one of the
variance factors vanishes, and any returned value equals the Pearson
coefficient and lies between -1 and 1. -/
theorem correlation_null_iff_and_bounds (ts : List Trade) :
    (correlation ts = none ↔ ts.length < 2 ∨ denominator (perTrade ts) = 0) ∧
    (denominator (perTrade ts) = 0 ↔
      denomLeft (perTrade ts) = 0 ∨ denomRight (perTrade ts) = 0) ∧
    ∀ r : ℝ, correlation ts = some r →
      r = (corrNumerator (perTrade ts) : ℝ) / denominator (perTrade ts) ∧
      -1 ≤ r ∧ r ≤ 1 := by
  have hlen : (perTrade ts).length = ts.length := List.length_map _ _
  refine ⟨⟨fun h => ?_, fun h => ?_⟩, denominator_eq_zero_iff _, fun r hr => ?_⟩
  · rw [correlation] at h
    split_ifs at h with h1 h2
    · exact Or.inl (hlen ▸ h1)
    · exact Or.inr h2
  · rw [correlation]
    rcases h with h | h
    · rw [if_pos (by rw [hlen]; exact h)]
    · by_cases h1 : (perTrade ts).length < 2
      · rw [if_pos h1]
      · rw [if_neg h1, if_pos h]
  · rw [correlation] at hr
    split_ifs at hr with h1 h2
    obtain rfl := Option.some.inj hr
    exact ⟨rfl, correlation_value_bounds h2⟩

/-- Supporting computation: the perTrade pairs of the corrTrades sample. -/
lemma perTrade_corrTrades : perTrade corrTrades = [(1, 0), (3, 1)] := rfl

lemma corrNumerator_corrTrades : corrNumerator (perTrade corrTrades) = 2 := by
  rw [perTrade_corrTrades]
  norm_num [corrNumerator, sumXY, sumX, sumY]

lemma denomLeft_corrTrades : denomLeft (perTrade corrTrades) = 4 := by
  rw [perTrade_corrTrades]
  norm_num [denomLeft, sumX2, sumX]

lemma denomRight_corrTrades : denomRight (perTrade corrTrades) = 1 := by
  rw [perTrade_corrTrades]
  norm_num [denomRight, sumY2, sumY]

lemma denominator_corrTrades : denominator (perTrade corrTrades) = 2 := by
  rw [denominator, denomLeft_corrTrades, denomRight_corrTrades]
  rw [show ((4 : ℚ) : ℝ) * ((1 : ℚ) : ℝ) = 2 ^ 2 by norm_num]
  exact Real.sqrt_sq (by norm_num)

lemma correlation_corrTrades : correlation corrTrades = some 1 := by
  rw [correlation, if_neg (by rw [perTrade_corrTrades]; norm_num),
    if_neg (by rw [denominator_corrTrades]; norm_num)]
  rw [denominator_corrTrades, corrNumerator_corrTrades]
  norm_num

/-- Concrete instantiation of the C2 theorem on the two-trade sample whose
correlation is exactly 1. -/
theorem correlation_null_iff_and_bounds_witness :
    correlation corrTrades = some 1 ∧
    ((1 : ℝ) = (corrNumerator (perTrade corrTrades) : ℝ) /
        denominator (perTrade corrTrades) ∧
      -1 ≤ (1 : ℝ) ∧ (1 : ℝ) ≤ 1) :=
  ⟨correlation_corrTrades,
    (correlation_null_iff_and_bounds corrTrades).2.2 1 correlation_corrTrades⟩

/-! ## Division guards and the suggestion rules -/

/-- C8: every division the analytics performs is guarded: each strategy
bucket divides wins by a strictly positive total (returning 0 otherwise by
construction), and a correlation value is produced only when the
square-root denominator is nonzero, so no division by zero contributes to
the output. -/
theorem division_guards (ts : List Trade) :
    (∀ s ∈ byStrategy ts,
      0 < s.total ∧ s.winRate = (s.wins : ℚ) / (s.total : ℚ)) ∧
    ∀ r : ℝ, correlation ts = some r →
      denominator (perTrade ts) ≠ 0 ∧
      r = (corrNumerator (perTrade ts) : ℝ) / denominator (perTrade ts) := by
  refine ⟨fun s hs => ⟨byStrategy_total_pos hs, byStrategy_winRate_eq hs⟩,
    fun r hr => ?_⟩
  rw [correlation] at hr
  split_ifs at hr with h1 h2
  exact ⟨h2, (Option.some.inj hr).symm⟩

/-- Concrete instantiation of the C8 theorem. -/
theorem division_guards_witness :
    (0 < (strategyStat sampleTrades "a").total ∧
      (strategyStat sampleTrades "a").winRate =
        ((strategyStat sampleTrades "a").wins : ℚ) /
          ((strategyStat sampleTrades "a").total : ℚ)) ∧
    denominator (perTrade corrTrades) ≠ 0 := by
  have hmem : strategyStat sampleTrades "a" ∈ byStrategy sampleTrades := by
    rw [byStrategy, List.mem_mergeSort]
    exact List.mem_map_of_mem _ (by decide)
  exact ⟨(division_guards sampleTrades).1 _ hmem,
    ((division_guards corrTrades).2 1 correlation_corrTrades).1⟩

lemma byStrategy_sorted (ts : List Trade) :
    (byStrategy ts).Pairwise (fun a b => a.winRate ≤ b.winRate) := by
  have h := @List.sorted_mergeSort StrategyStat
    (fun a b => decide (a.winRate ≤ b.winRate))
    (fun a b c hab hbc => by
      rw [decide_eq_true_iff] at hab hbc ⊢
      exact le_trans hab hbc)
    (fun a b => by
      rcases le_total a.winRate b.winRate with h | h <;> simp [h])
    (((ts.map (fun t => t.strategyId)).dedup).map (strategyStat ts))
  exact (List.Pairwise.imp (fun hab => of_decide_eq_true hab)) h

lemma byRisk_keys_nodup (ts : List Trade) :
    ((byRisk ts).map (fun b => b.riskLevel)).Nodup := by
  have hperm : ((byRisk ts).map (fun b => b.riskLevel)).Perm
      ((((ts.map (fun t => t.riskLevel)).dedup).map (riskStat ts)).map
        (fun b => b.riskLevel)) :=
    (List.mergeSort_perm _ _).map _
  rw [hperm.nodup_iff, List.map_map]
  have hid : ((fun b : RiskStat => b.riskLevel) ∘ riskStat ts) = id := rfl
  rw [hid, List.map_id]
  exact List.nodup_dedup _

open Classical in
/-- C3: the suggestions list is exactly the refine lines for the
underperforming strategies (whose win rates are in ascending order),
followed by the low-risk size line exactly when a low bucket has count at
least 3 and strictly positive avgOutcome, followed by the exposure line
exactly when the correlation is a number strictly below -0.2. -/
theorem suggestions_rules (ts : List Trade) :
    ((underperformingStrategies ts).map (fun s => s.winRate)).Pairwise (· ≤ ·) ∧
    suggestions ts =
      ((underperformingStrategies ts).map
        (fun s => "Refine entry criteria for strategy " ++ s.strategyId))
      ++ (if ∃ b ∈ byRisk ts, b.riskLevel = "low" ∧ 3 ≤ b.count ∧ 0 < b.avgOutcome
          then ["Increase position size for low-risk trades"] else [])
      ++ (if ∃ c : ℝ, correlation ts = some c ∧ c < -(1/5 : ℝ)
          then ["Reduce exposure to high-risk trades"] else []) := by
  constructor
  · have hf := (byStrategy_sorted ts).filter
      (fun s => decide (0 < s.total ∧ s.winRate < 1/2))
    rw [underperformingStrategies, List.map_map]
    exact List.pairwise_map.mpr hf
  · rw [suggestions]
    congr 1
    · congr 1
      cases hfind : (byRisk ts).find? (fun b => decide (b.riskLevel = "low")) with
      | none =>
        have hno : ¬∃ b ∈ byRisk ts, b.riskLevel = "low" ∧ 3 ≤ b.count ∧
            0 < b.avgOutcome := by
          rintro ⟨b, hb, hlvl, -⟩
          have := List.find?_eq_none.mp hfind b hb
          simp [hlvl] at this
        simp only [hfind]
        rw [if_neg hno]
      | some b =>
        have hb_mem : b ∈ byRisk ts := List.mem_of_find?_eq_some hfind
        have hlvl : b.riskLevel = "low" := by
          have := List.find?_some hfind
          simpa using this
        simp only [hfind]
        by_cases hcond : 3 ≤ b.count ∧ 0 < b.avgOutcome
        · rw [if_pos hcond, if_pos ⟨b, hb_mem, hlvl, hcond.1, hcond.2⟩]
        · rw [if_neg hcond, if_neg ?_]
          rintro ⟨b2, hb2, hlvl2, hc2, ha2⟩
          have hbb : b2 = b :=
            List.inj_on_of_nodup_map (byRisk_keys_nodup ts) hb2 hb_mem
              (hlvl2.trans hlvl.symm)
          exact hcond ⟨hbb ▸ hc2, hbb ▸ ha2⟩
    · cases hc : correlation ts with
      | none =>
        simp only [hc]
        rw [if_neg ?_]
        rintro ⟨c, hcc, -⟩
        exact Option.noConfusion hcc
      | some c =>
        simp only [hc]
        by_cases hlt : c < -(1/5 : ℝ)
        · rw [if_pos hlt, if_pos ⟨c, rfl, hlt⟩]
        · rw [if_neg hlt, if_neg ?_]
          rintro ⟨c2, hcc, hlt2⟩
          obtain rfl := Option.some.inj hcc
          exact hlt hlt2

end UserStrategy
